import Mathlib

/-!
Verification of the `aspipes` deferred-pipeline library.

The core (`src/index.js`, `createAsPipes`) builds pipelines as an ordered
list of step functions against an initial value, kept in a mutable context;
a process-wide stack (the pending-construction registry) holds the contexts
currently accepting declarations.  `run()` folds the steps left-to-right
over the initial value.  A step whose underlying function builds a nested
pipeline during its own execution is auto-flattened: if the function
returned the numeric sentinel `0` and the registry grew, the nested context
is popped and its fold substituted; if it returned a handle (an object with
a `run` method), that handle is run and its result substituted.

The stream layer (`src/stream.js`, `createStreamPipes`) provides
`map`/`filter`/`take`/`scan`/`reduce` over asynchronous sequences.

Embedding notes:
* Promises are erased: `await Promise.resolve(e)` is the value of `e`, and
  a thrown error / rejected promise is `Except.error`.
* The step functions stored in a context are defunctionalised as the
  inductive `Fn`: either a lifted plain function applied to the
  accumulated value plus bound arguments (`Fn.prim`), or a function that
  during its execution builds a nested pipeline `begin(v) -> steps` —
  pushing one context onto the registry — and then returns per `Ret`
  (`Fn.nested`).  This covers exactly the step shapes the library's
  contract describes.
* Nested runs (the auto-flatten pop and `result.run()`) re-enter the fold
  on data taken from the registry, so the interpreter takes a fuel
  parameter; exhaustion is the modelling artefact `Err.outOfFuel`, never
  reached at the fuel used in concrete evaluations.
-/

namespace AsPipes

/-- Errors a pipeline evaluation or declaration can surface.
`userError` is an error thrown by a step's underlying function (or a
rejected promise); `typeError` is the host's type error (e.g. calling
`toUpperCase` on a non-string); `emptyRegistry` is the failure of a
declaration made with no pipeline under construction (in the source,
reading `.steps` of `stack.at(-1)` = `undefined` throws); `outOfFuel` is
the embedding's fuel-exhaustion artefact. -/
inductive Err where
  | userError (msg : String)
  | typeError (msg : String)
  | emptyRegistry
  | outOfFuel
deriving Repr, DecidableEq

/-- The lifted plain functions used by the library's tests and spec
scenarios, defunctionalised.  Each is applied to the accumulated value and
the list of bound extra arguments (`(accumulated, ...boundArgs)`). -/
inductive UFn where
  | upperF                   -- (s) => s.toUpperCase()
  | exclaimF                 -- (s, mark = '!') => s + mark
  | addF                     -- (x, n) => x + n
  | mulF                     -- (x, n) => x * n
  | squareF                  -- (x) => x * x
  | throwF (msg : String)    -- () => { throw new Error(msg) }
deriving Repr, DecidableEq

mutual
/-- JS runtime values flowing through a pipeline, restricted to the shapes
the library manipulates.  `handle` is a pipeline handle: the token returned
by `pipe(x)`, owning an initial value and a step list and exposing `run`. -/
inductive Value where
  | num (n : Int)
  | str (s : String)
  | bool (b : Bool)
  | null
  | undef
  | handle (v : Value) (steps : List Fn)

/-- A declared step's underlying function, defunctionalised (see module
docstring).  `prim u args` invokes `u` on `(accumulated, ...args)`.
`nested steps ret` models a function body `const p = pipe(accumulated);
p | s1 | ... | sk; return <ret>` — it pushes the context
`(accumulated, steps)` onto the registry and returns per `ret`. -/
inductive Fn where
  | prim (u : UFn) (args : List Value)
  | nested (steps : List Fn) (ret : Ret)

/-- What a nested-pipeline-building function returns: the numeric chaining
sentinel `0`, the handle of the pipeline it just built, or any other
value. -/
inductive Ret where
  | sentinel0
  | theHandle
  | other (w : Value)
end

/-- A pipeline context: initial value and ordered step list
(`{ v: x, steps: [] }` in `pipe`). -/
abbrev Ctx := Value × List Fn

/-- The pending-construction registry: a stack of contexts, most recent
first (`stack.at(-1)` is the head here). -/
abbrev Stack := List Ctx

/-- The check `result === 0`: strict equality with the number `0`. -/
def isNumZero : Value → Bool
  | .num 0 => true
  | _ => false

/-- The check `result && typeof result.run === 'function'`: only a pipeline handle
is truthy and carries a `run` method. -/
def isHandle : Value → Bool
  | .handle _ _ => true
  | _ => false

/-- JS `s.toUpperCase()` on an ASCII string: uppercase every character.
(Structurally recursive counterpart of `String.toUpper`, which is defined
by well-founded recursion and so does not evaluate inside proofs.) -/
def jsToUpper (s : String) : String := ⟨s.data.map Char.toUpper⟩

/-- Evaluation of a lifted plain function on `(accumulated, ...args)`,
mirroring the functions the tests lift (`test.js`): `upper`, `ex`
(default mark `'!'`, a JS default that also applies when the argument is
`undefined`), `add`, `mul`/`multiply`, `square`, and a throwing step.
Only the value shapes those functions are applied to are modelled; on
other shapes the host would coerce or throw, modelled as `typeError`. -/
def evalUFn : UFn → Value → List Value → Except Err Value
  | .upperF, .str s, _ => .ok (.str (jsToUpper s))
  | .upperF, _, _ => .error (.typeError "toUpperCase is not a function")
  | .exclaimF, .str s, [] => .ok (.str (s ++ "!"))
  | .exclaimF, .str s, .undef :: _ => .ok (.str (s ++ "!"))
  | .exclaimF, .str s, .str m :: _ => .ok (.str (s ++ m))
  | .exclaimF, _, _ => .error (.typeError "exclaim applied outside the modelled string fragment")
  | .addF, .num x, .num n :: _ => .ok (.num (x + n))
  | .addF, _, _ => .error (.typeError "add applied outside the modelled numeric fragment")
  | .mulF, .num x, .num n :: _ => .ok (.num (x * n))
  | .mulF, _, _ => .error (.typeError "mul applied outside the modelled numeric fragment")
  | .squareF, .num x, _ => .ok (.num (x * x))
  | .squareF, _, _ => .error (.typeError "square applied outside the modelled numeric fragment")
  | .throwF msg, _, _ => .error (.userError msg)

/-- The value a `Fn.nested` body returns after building `(v, steps)`. -/
def retOf (v : Value) (steps : List Fn) : Ret → Value
  | .sentinel0 => .num 0
  | .theHandle => .handle v steps
  | .other w => w

/-- One declared step, as pushed by the `Symbol.toPrimitive` hook of an
operation (`index.js` lines 29–44 / 49–64), parameterised by `deeper`, the
evaluator used for a nested pipeline's fold: record the registry length,
run the underlying function on the accumulated value, then
(a) if the result is `0` and the registry grew, pop the top context and
run its fold; (b) else if the result has a `run` method, run it;
(c) else pass the result through. -/
def runStepWith
    (deeper : List Fn → Value → Stack → Except Err (Value × Stack))
    (fn : Fn) (v : Value) (stack : Stack) : Except Err (Value × Stack) :=
  let before := stack.length
  let applied : Except Err (Value × Stack) :=
    match fn with
    | .prim u args => (evalUFn u v args).map (fun r => (r, stack))
    | .nested steps ret => .ok (retOf v steps ret, (v, steps) :: stack)
  match applied with
  | .error e => .error e
  | .ok (result, stack') =>
    if isNumZero result && decide (stack'.length > before) then
      match stack' with
      | ctx :: rest => deeper ctx.2 ctx.1 rest
      | [] => .error .emptyRegistry -- unreachable: the registry grew, so it is nonempty
    else
      match result with
      | .handle hv hsteps => deeper hsteps hv stack'
      | _ => .ok (result, stack')

/-- The execution engine's fold
(`ctx.steps.reduce((p, f) => p.then(f), Promise.resolve(ctx.v))`),
parameterised like `runStepWith`: thread the accumulated value through the
steps left to right, stopping at the first failure. -/
def runStepsWith
    (deeper : List Fn → Value → Stack → Except Err (Value × Stack)) :
    List Fn → Value → Stack → Except Err (Value × Stack)
  | [], v, stack => .ok (v, stack)
  | f :: fs, v, stack =>
    match runStepWith deeper f v stack with
    | .error e => .error e
    | .ok (v', stack') => runStepsWith deeper fs v' stack'

/-- The execution engine's fold at nesting budget `fuel`: each entry into a
nested pipeline's fold (auto-flatten pop or `result.run()`) spends one unit
of fuel, so `fuel` bounds the nesting depth; pipelines whose steps are all
plain lifted functions need no fuel at all. -/
def runSteps : Nat → List Fn → Value → Stack → Except Err (Value × Stack)
  | 0, steps, v, stack =>
    runStepsWith (fun _ _ _ => .error .outOfFuel) steps v stack
  | fuel + 1, steps, v, stack => runStepsWith (runSteps fuel) steps v stack

/-- One step at nesting budget `fuel`. -/
def runStep (fuel : Nat) (fn : Fn) (v : Value) (stack : Stack) :
    Except Err (Value × Stack) :=
  match fuel with
  | 0 => runStepWith (fun _ _ _ => .error .outOfFuel) fn v stack
  | f + 1 => runStepWith (runSteps f) fn v stack

/-- Running `handle.run()` on a handle built by `pipe(v)` whose context holds
`steps`, evaluated with an empty registry (the state at top level once
construction is over). -/
def runPipe (fuel : Nat) (v : Value) (steps : List Fn) :
    Except Err (Value × Stack) :=
  runSteps fuel steps v []

/-! ## The construction layer

Declarations happen while a pipeline is being built: the handle's
`Symbol.toPrimitive` pushes its context onto the registry (`index.js`
line 73), and each operation's `Symbol.toPrimitive` appends one step to
the topmost context (`stack.at(-1).steps.push(...)`). -/

/-- Construction `pipe(x)`: allocate a fresh context.  Nothing is pushed onto the
registry yet — that happens when the handle first participates in a
chaining expression. -/
def pipeCtx (x : Value) : Ctx := (x, [])

/-- The handle's chaining hook: `stack.push(ctx)` then yield `0`. -/
def pushCtx (ctx : Ctx) (st : Stack) : Stack := ctx :: st

/-- An operation's chaining hook, `stack.at(-1).steps.push(step)`: append
one step to the context on top of the registry.  With no pipeline under
construction, `stack.at(-1)` is `undefined` and reading its `.steps`
throws — the spec's `EmptyRegistry` failure. -/
def declareStep (fn : Fn) : Stack → Except Err Stack
  | [] => .error .emptyRegistry
  | (v, steps) :: rest => .ok ((v, steps ++ [fn]) :: rest)

/-- A bare lifted operation: `asPipe(fn)` wrapping one plain function. -/
structure Operation where
  ufn : UFn

/-- An applied operation value: the result of calling a lifted operation
with arguments (the `apply` trap, `index.js` lines 46–66) — the underlying
function shared, the call's arguments captured. -/
structure BoundOp where
  ufn : UFn
  args : List Value

/-- The `apply` trap of a lifted operation: build the argument-bound
operation value.  Its body only allocates the callable `t` and installs
its chaining hook; the registry is not consulted or modified. -/
def callOp (op : Operation) (args : List Value) (st : Stack) :
    BoundOp × Stack :=
  (⟨op.ufn, args⟩, st)

/-- Declaring a bare operation registers a step that invokes the
underlying function with no extra arguments. -/
def declareBare (op : Operation) (st : Stack) : Except Err Stack :=
  declareStep (.prim op.ufn []) st

/-- Declaring a bound operation value registers a step that invokes the
shared underlying function with `(accumulated, ...boundArgs)`. -/
def declareBound (b : BoundOp) (st : Stack) : Except Err Stack :=
  declareStep (.prim b.ufn b.args) st

/-- The left-to-right sequential fold `sn(...s1(v))` of a list of lifted
plain functions (with their bound arguments) over an initial value —
the mathematical shape `run()` is claimed to compute. -/
def foldPrim (ps : List (UFn × List Value)) (v : Value) : Except Err Value :=
  ps.foldlM (fun acc p => evalUFn p.1 acc p.2) v

end AsPipes

namespace StreamPipes

/-!
The lazy-sequence combinators of `src/stream.js`.  An upstream producer is
modelled as `up : Nat → Option α`: `up i` is what the producer's `i`-th
pull yields, `none` meaning the producer is exhausted there (the loops stop
at the first `none`, so later values are never consulted).  An async
generator's run is modelled as the sequence of values it yields when the
consumer drains it to completion (as the tests do via `collect`).
-/

variable {α : Type}

/-- The loop of `take` (`stream.js`):

```
let count = 0;
for await (const item of iterable) {
  if (count >= n) break;
  yield item;
  count++;
}
```

Each `for await` iteration first pulls one item from upstream, then either
breaks (when `count >= n`) or yields it.  The source counts `count`
upwards and breaks at `count >= n`; to stay structurally recursive we
carry `remaining = (n - count).toNat` instead, which is `0` exactly when
`count >= n` and drops by one per yield.  `idx` is the next upstream pull
position, `consumed` counts the elements received from upstream so far
(a pull answered by "done" receives no element), and `acc` the yielded
items in reverse. -/
def takeLoop (up : Nat → Option α) :
    Nat → Nat → Nat → List α → List α × Nat
  | 0, idx, consumed, acc =>
    match up idx with
    | none => (acc.reverse, consumed)
    | some _ => (acc.reverse, consumed + 1)
  | rem + 1, idx, consumed, acc =>
    match up idx with
    | none => (acc.reverse, consumed)
    | some item => takeLoop up rem (idx + 1) (consumed + 1) (item :: acc)

/-- Combinator `take(seq, n)` drained to completion: the yielded items and the number
of upstream elements consumed.  At entry `count = 0`, so
`remaining = (n - 0).toNat = n.toNat` (zero for `n <= 0`, matching
`0 >= n`). -/
def take (up : Nat → Option α) (n : Int) : List α × Nat :=
  takeLoop up n.toNat 0 0 []

/-- The loop of `scan` (`stream.js`): running accumulator, seeded by the
first element when the accumulator is `undefined` (`none`) and the
first-element flag is still set; one value yielded per element.  The flag
is cleared only in the seeding branch, exactly as in the source. -/
def scanLoop (r : Option α → Option α → Option α) :
    List (Option α) → Option α → Bool → List (Option α)
  | [], _, _ => []
  | item :: rest, acc, isF =>
    if isF && acc.isNone then
      item :: scanLoop r rest item false
    else
      let acc' := r acc item
      acc' :: scanLoop r rest acc' isF

/-- Combinator `scan(seq, reducer, initialValue)` drained to completion (an unset
`initialValue` is `none`). -/
def scan (items : List (Option α)) (r : Option α → Option α → Option α)
    (init : Option α) : List (Option α) :=
  scanLoop r items init true

/-- The loop of `reduce` (`stream.js`): same folding rule as `scan`, but
nothing is yielded; the final accumulator is returned once the upstream is
exhausted. -/
def reduceLoop (r : Option α → Option α → Option α) :
    List (Option α) → Option α → Bool → Option α
  | [], acc, _ => acc
  | item :: rest, acc, isF =>
    if isF && acc.isNone then reduceLoop r rest item false
    else reduceLoop r rest (r acc item) isF

/-- Combinator `reduce(seq, reducer, initialValue)`: the single final value. -/
def reduce (items : List (Option α)) (r : Option α → Option α → Option α)
    (init : Option α) : Option α :=
  reduceLoop r items init true

end StreamPipes

/-! ## Engine lemmas -/

namespace AsPipes

/-- None of the modelled lifted plain functions produces a pipeline
handle. -/
theorem evalUFn_isHandle_false (u : UFn) (v : Value) (args : List Value)
    (r : Value) (h : evalUFn u v args = .ok r) : isHandle r = false := by
  unfold evalUFn at h
  split at h <;> cases h <;> rfl

/-- A step lifted from a plain function neither observes nor changes the
registry: it is exactly the underlying function's result (or failure)
threaded past an unchanged stack. -/
theorem runStepWith_prim
    (deeper : List Fn → Value → Stack → Except Err (Value × Stack))
    (u : UFn) (args : List Value) (v : Value) (s : Stack) :
    runStepWith deeper (.prim u args) v s =
      match evalUFn u v args with
      | .ok r => .ok (r, s)
      | .error e => .error e := by
  unfold runStepWith
  cases h : evalUFn u v args with
  | error e => simp [h, Except.map]
  | ok r =>
    have hh := evalUFn_isHandle_false u v args r h
    simp only [h, Except.map]
    have hlt : decide (s.length > s.length) = false := by simp
    simp only [hlt, Bool.and_false, Bool.false_eq_true, if_false]
    cases r <;> simp_all [isHandle]

/-- Lemma for `runStep` on a lifted plain function, at any fuel. -/
theorem runStep_prim (fuel : Nat) (u : UFn) (args : List Value)
    (v : Value) (s : Stack) :
    runStep fuel (.prim u args) v s =
      match evalUFn u v args with
      | .ok r => .ok (r, s)
      | .error e => .error e := by
  cases fuel <;> exact runStepWith_prim _ u args v s

/-- The fold on an empty step list returns the value unchanged. -/
theorem runSteps_nil (fuel : Nat) (v : Value) (s : Stack) :
    runSteps fuel [] v s = .ok (v, s) := by
  cases fuel <;> rfl

/-- The fold peels one step at a time, left to right. -/
theorem runSteps_cons (fuel : Nat) (f : Fn) (fs : List Fn) (v : Value)
    (s : Stack) :
    runSteps fuel (f :: fs) v s =
      match runStep fuel f v s with
      | .error e => .error e
      | .ok (v', s') => runSteps fuel fs v' s' := by
  cases fuel <;> rfl

/-- Sequencing: running a concatenated step list is running the first part
and then the second from its outcome. -/
theorem runSteps_append (fuel : Nat) (l1 l2 : List Fn) (v : Value)
    (s : Stack) :
    runSteps fuel (l1 ++ l2) v s =
      match runSteps fuel l1 v s with
      | .error e => .error e
      | .ok (w, s') => runSteps fuel l2 w s' := by
  induction l1 generalizing v s with
  | nil => simp [runSteps_nil]
  | cons f fs ih =>
    rw [List.cons_append, runSteps_cons, runSteps_cons]
    cases runStep fuel f v s with
    | error e => rfl
    | ok p => exact ih p.1 p.2

/-- A pipeline of lifted plain functions computes exactly the sequential
left-to-right fold of those functions over the initial value, leaving the
registry untouched — at any fuel. -/
theorem runSteps_prims (fuel : Nat) (ps : List (UFn × List Value))
    (v : Value) (s : Stack) :
    runSteps fuel (ps.map fun p => Fn.prim p.1 p.2) v s =
      match foldPrim ps v with
      | .ok w => .ok (w, s)
      | .error e => .error e := by
  induction ps generalizing v with
  | nil => rw [List.map_nil, runSteps_nil]; rfl
  | cons p ps ih =>
    rw [List.map_cons, runSteps_cons, runStep_prim]
    cases h : evalUFn p.1 v p.2 with
    | error e =>
      simp only [foldPrim, List.foldlM_cons, h]
      rfl
    | ok w =>
      simp only [foldPrim, List.foldlM_cons, h]
      exact ih w

/-- The auto-flatten pop: a step whose function builds a nested pipeline
and returns the `0` sentinel pops the nested context and runs its fold in
place (here with an arbitrary nested evaluator). -/
theorem runStepWith_nested_sentinel
    (deeper : List Fn → Value → Stack → Except Err (Value × Stack))
    (steps : List Fn) (v : Value) (s : Stack) :
    runStepWith deeper (.nested steps .sentinel0) v s = deeper steps v s := by
  unfold runStepWith
  simp [retOf, isNumZero, Nat.lt_succ_self]

/-- A step whose function builds a nested pipeline and returns its handle
runs the handle — but the nested context stays on the registry. -/
theorem runStepWith_nested_handle
    (deeper : List Fn → Value → Stack → Except Err (Value × Stack))
    (steps : List Fn) (v : Value) (s : Stack) :
    runStepWith deeper (.nested steps .theHandle) v s =
      deeper steps v ((v, steps) :: s) := by
  unfold runStepWith
  simp [retOf, isNumZero, isHandle]

/-- A step whose function grows the registry but returns a value that is
neither the number `0` nor run-capable passes that value through and
leaves the nested context on the registry. -/
theorem runStepWith_nested_other
    (deeper : List Fn → Value → Stack → Except Err (Value × Stack))
    (steps : List Fn) (w v : Value) (s : Stack)
    (h0 : isNumZero w = false) (hh : isHandle w = false) :
    runStepWith deeper (.nested steps (.other w)) v s =
      .ok (w, (v, steps) :: s) := by
  unfold runStepWith
  simp only [retOf, h0, Bool.false_and, Bool.false_eq_true, if_false]
  cases w <;> simp_all [isHandle]

/-! ## Claims about the core engine -/

/-- C1: for every pipeline with declared steps `s1..sn` (lifted plain
functions with their bound arguments) and initial value `v`, `run()`
computes the strict left-to-right sequential fold `sn(...s1(v))`
(`foldPrim`), at any fuel and over any registry; asynchronous settling is
erased by the embedding, so a step being synchronous or asynchronous
cannot change the result.  Concretely,
`pipe("hello") | upper | exclaim("!!!")` runs to `"HELLO!!!"`. -/
theorem run_is_sequential_fold :
    (∀ (fuel : Nat) (ps : List (UFn × List Value)) (v : Value) (s : Stack),
        runSteps fuel (ps.map fun p => Fn.prim p.1 p.2) v s =
          match foldPrim ps v with
          | .ok w => .ok (w, s)
          | .error e => .error e) ∧
      runPipe 1 (.str "hello") [.prim .upperF [], .prim .exclaimF [.str "!!!"]] =
        .ok (.str "HELLO!!!", []) :=
  ⟨runSteps_prims, rfl⟩

/-- C2: a step whose underlying function builds a nested pipeline
`begin(value) -> declare(a) -> declare(b)` and returns the `0` sentinel is
flattened — the engine pops the nested context and runs its fold — and one
returning the nested handle has that handle run; in both cases the step's
output is the nested fold's result, i.e. `b(a(value))` when the nested
steps are lifted plain functions.  Concretely, the outer pipeline
`begin(3) -> declare(composed)`, with `composed` internally computing
`(v+5)*2` and then squaring, runs to `256` under both return conventions
(under the handle convention the nested context additionally remains on
the registry). -/
theorem nested_pipeline_flattens :
    (∀ (fuel : Nat) (steps : List Fn) (v : Value) (s : Stack),
        runStep (fuel + 1) (.nested steps .sentinel0) v s =
          runSteps fuel steps v s) ∧
    (∀ (fuel : Nat) (steps : List Fn) (v : Value) (s : Stack),
        runStep (fuel + 1) (.nested steps .theHandle) v s =
          runSteps fuel steps v ((v, steps) :: s)) ∧
    (∀ (fuel : Nat) (a b : UFn) (xs ys : List Value) (v : Value) (s : Stack),
        (runStep (fuel + 1)
            (.nested [.prim a xs, .prim b ys] .sentinel0) v s).map Prod.fst =
          (evalUFn a v xs).bind fun x => evalUFn b x ys) ∧
    (∀ (fuel : Nat) (a b : UFn) (xs ys : List Value) (v : Value) (s : Stack),
        (runStep (fuel + 1)
            (.nested [.prim a xs, .prim b ys] .theHandle) v s).map Prod.fst =
          (evalUFn a v xs).bind fun x => evalUFn b x ys) ∧
    runPipe 2 (.num 3)
        [.nested [.prim .addF [.num 5], .prim .mulF [.num 2],
          .prim .squareF []] .sentinel0] =
      .ok (.num 256, []) ∧
    runPipe 2 (.num 3)
        [.nested [.prim .addF [.num 5], .prim .mulF [.num 2],
          .prim .squareF []] .theHandle] =
      .ok (.num 256, [(.num 3, [.prim .addF [.num 5], .prim .mulF [.num 2],
        .prim .squareF []])]) := by
  refine ⟨fun fuel steps v s => runStepWith_nested_sentinel _ steps v s,
    fun fuel steps v s => runStepWith_nested_handle _ steps v s,
    ?_, ?_, rfl, rfl⟩ <;>
  · intro fuel a b xs ys v s
    rw [show runStep (fuel + 1) _ v s = _ from
      (by first
        | exact runStepWith_nested_sentinel (runSteps fuel) _ v s
        | exact runStepWith_nested_handle (runSteps fuel) _ v s)]
    rw [runSteps_cons, runStep_prim]
    cases ha : evalUFn a v xs with
    | error e => rfl
    | ok x =>
      show Except.map Prod.fst (runSteps fuel [Fn.prim b ys] x _) =
        evalUFn b x ys
      rw [runSteps_cons, runStep_prim]
      cases hb : evalUFn b x ys with
      | error e => rfl
      | ok y =>
        show Except.map Prod.fst (runSteps fuel [] y _) = Except.ok y
        rw [runSteps_nil]
        rfl

/-- C4: a failing step makes the whole fold fail with that same error, and
no step after the failing one executes — the steps past the failure point
(`post`) never influence the outcome, and no partial value is produced. -/
theorem failing_step_rejects
    (fuel : Nat) (pre post : List Fn) (msg : String) (v w : Value)
    (s s' : Stack) (h : runSteps fuel pre v s = .ok (w, s')) :
    runSteps fuel (pre ++ .prim (.throwF msg) [] :: post) v s =
      .error (.userError msg) := by
  rw [runSteps_append, h]
  show runSteps fuel (.prim (.throwF msg) [] :: post) w s' = _
  rw [runSteps_cons, runStep_prim]
  cases w <;> rfl

/-- C4 witness: `begin(5)` with a step that throws `"X"` (followed by a
further step) rejects with exactly `"X"`. -/
theorem failing_step_rejects_witness :
    runSteps 0 ([] : List Fn) (.num 5) [] = .ok (.num 5, []) ∧
      runSteps 0 ([] ++ .prim (.throwF "X") [] :: [.prim .squareF []])
          (.num 5) [] =
        .error (.userError "X") :=
  ⟨rfl, failing_step_rejects 0 [] [.prim .squareF []] "X" (.num 5) (.num 5)
    [] [] rfl⟩

/-- C5: declaring an operation — bare, bound, or any step — with no
pipeline under construction (empty registry) fails with the
`EmptyRegistry` error. -/
theorem declare_on_empty_registry_fails :
    (∀ fn : Fn, declareStep fn [] = .error .emptyRegistry) ∧
    (∀ op : Operation, declareBare op [] = .error .emptyRegistry) ∧
    (∀ b : BoundOp, declareBound b [] = .error .emptyRegistry) :=
  ⟨fun _ => rfl, fun _ => rfl, fun _ => rfl⟩

/-- C7: calling an operation value with arguments only produces the bound
operation value — same shared underlying function, arguments captured —
and leaves the registry untouched; a step is appended only when the bound
value is later declared, and running that step invokes the underlying
function on `(accumulated, ...boundArgs)`. -/
theorem call_binds_without_registering :
    (∀ (op : Operation) (args : List Value) (st : Stack),
        (callOp op args st).2 = st ∧ (callOp op args st).1 = ⟨op.ufn, args⟩) ∧
    (∀ (b : BoundOp) (v : Value) (steps : List Fn) (rest : Stack),
        declareBound b ((v, steps) :: rest) =
          .ok ((v, steps ++ [.prim b.ufn b.args]) :: rest)) ∧
    (∀ (fuel : Nat) (u : UFn) (args : List Value) (v : Value) (s : Stack),
        runStep fuel (.prim u args) v s =
          match evalUFn u v args with
          | .ok r => .ok (r, s)
          | .error e => .error e) :=
  ⟨fun _ _ _ => ⟨rfl, rfl⟩, fun _ _ _ _ => rfl, runStep_prim⟩

/-- C8: a pipeline with an empty step list is the identity — `run()`
resolves to the initial value unchanged; concretely `pipe(42).run()` is
`42`. -/
theorem empty_pipeline_is_identity :
    (∀ (fuel : Nat) (v : Value) (s : Stack),
        runSteps fuel [] v s = .ok (v, s)) ∧
      runPipe 0 (.num 42) [] = .ok (.num 42, []) :=
  ⟨runSteps_nil, rfl⟩

/-- C9: the nested-pipeline sentinel check is strict equality with the
number `0`: a step whose function grows the registry but returns any value
that is not the number `0` and has no `run` method (e.g. `false`, `null`,
`undefined`, or the string `"0"`) passes that value through unchanged, and
the nested context is left on the registry, never flattened or run. -/
theorem non_sentinel_return_passes_through
    (fuel : Nat) (steps : List Fn) (w v : Value) (s : Stack)
    (h0 : isNumZero w = false) (hh : isHandle w = false) :
    runStep fuel (.nested steps (.other w)) v s = .ok (w, (v, steps) :: s) := by
  cases fuel with
  | zero =>
    exact runStepWith_nested_other (fun _ _ _ => .error .outOfFuel)
      steps w v s h0 hh
  | succ f => exact runStepWith_nested_other (runSteps f) steps w v s h0 hh

/-- C9 witness: the string `"0"` is not the sentinel — it passes through
and the nested context stays on the registry. -/
theorem non_sentinel_return_passes_through_witness :
    isNumZero (.str "0") = false ∧ isHandle (.str "0") = false ∧
      runStep 0 (.nested [.prim .squareF []] (.other (.str "0")))
          (.num 1) [] =
        .ok (.str "0", [(.num 1, [.prim .squareF []])]) :=
  ⟨rfl, rfl, non_sentinel_return_passes_through 0 [.prim .squareF []]
    (.str "0") (.num 1) [] rfl rfl⟩

end AsPipes

/-! ## Stream lemmas -/

namespace StreamPipes

variable {α : Type}

/-- Running `takeLoop` over an inexhaustible upstream: it yields the next
`remaining` elements and consumes `remaining + 1` of them — one past the
boundary, because each loop iteration pulls before testing `count >= n`. -/
theorem takeLoop_infinite (f : Nat → α) (rem : Nat) :
    ∀ (idx consumed : Nat) (acc : List α),
      takeLoop (fun i => some (f i)) rem idx consumed acc =
        (acc.reverse ++ (List.range' idx rem).map f, consumed + rem + 1) := by
  induction rem with
  | zero => intro idx consumed acc; simp [takeLoop]
  | succ rem ih =>
    intro idx consumed acc
    rw [show takeLoop (fun i => some (f i)) (rem + 1) idx consumed acc =
      takeLoop (fun i => some (f i)) rem (idx + 1) (consumed + 1)
        (f idx :: acc) from rfl]
    rw [ih]
    rw [List.range'_succ, List.map_cons, List.reverse_cons]
    simp only [List.append_assoc, List.singleton_append]
    have : consumed + 1 + rem + 1 = consumed + (rem + 1) + 1 := by omega
    rw [this]

/-- Running `takeLoop` over the finite upstream given by a list: it yields the
next `remaining` available elements and consumes one more than it yields,
when one more is available. -/
theorem takeLoop_list (l : List α) (rem : Nat) :
    ∀ (idx consumed : Nat) (acc : List α),
      takeLoop (fun i => l[i]?) rem idx consumed acc =
        (acc.reverse ++ (l.drop idx).take rem,
          consumed + min (rem + 1) (l.length - idx)) := by
  induction rem with
  | zero =>
    intro idx consumed acc
    cases h : l[idx]? with
    | none =>
      have hle : l.length ≤ idx := List.getElem?_eq_none_iff.mp h
      simp [takeLoop, h, Nat.sub_eq_zero_of_le hle]
    | some a =>
      obtain ⟨hlt, -⟩ := List.getElem?_eq_some_iff.mp h
      simp only [takeLoop, h, List.take_zero, List.append_nil]
      have : min 1 (l.length - idx) = 1 := by omega
      rw [this]
  | succ rem ih =>
    intro idx consumed acc
    cases h : l[idx]? with
    | none =>
      have hle : l.length ≤ idx := List.getElem?_eq_none_iff.mp h
      simp [takeLoop, h, List.drop_eq_nil_of_le hle,
        Nat.sub_eq_zero_of_le hle]
    | some a =>
      obtain ⟨hlt, hget⟩ := List.getElem?_eq_some_iff.mp h
      simp only [takeLoop, h]
      rw [ih, List.drop_eq_getElem_cons hlt, List.take_succ_cons,
        List.reverse_cons, hget]
      simp only [List.append_assoc, List.singleton_append]
      have : consumed + 1 + min (rem + 1) (l.length - (idx + 1)) =
          consumed + min (rem + 1 + 1) (l.length - idx) := by omega
      rw [this]

/-! ## Claims about the stream combinators -/

/-- C3 counterexample: on the inexhaustible upstream `i ↦ i` with `n = 2`,
`take` drained to completion consumes `3` elements from upstream — more
than `n`, refuting "never pulls more than `n` elements from the upstream
producer" (the loop pulls once more before testing `count >= n`). -/
theorem take_pulls_past_boundary :
    take (fun i => some (i : Int)) 2 = ([0, 1], 3) ∧
      ¬ (take (fun i => some (i : Int)) 2).2 ≤ 2 := by
  constructor
  · rfl
  · decide

/-- C3 amended: `take(seq, n)` terminates on any upstream and yields
exactly the first `min(n, upstream length)` elements in upstream order
(nothing for `n ≤ 0`), but it does not stop requesting at the boundary:
drained to completion it consumes `n + 1` elements from an inexhaustible
upstream, and `min(n + 1, length)` from a finite one — one element past
the boundary whenever the upstream has one. -/
theorem take_yields_min_one_extra_pull (α : Type) :
    (∀ (f : Nat → α) (n : Int),
        take (fun i => some (f i)) n =
          ((List.range n.toNat).map f, n.toNat + 1)) ∧
    (∀ (l : List α) (n : Int),
        (take (fun i => l[i]?) n).1 = l.take n.toNat ∧
        (take (fun i => l[i]?) n).1.length = min n.toNat l.length ∧
        (take (fun i => l[i]?) n).2 = min (n.toNat + 1) l.length) ∧
    (∀ (up : Nat → Option α) (n : Int), n ≤ 0 →
        (take up n).1 = [] ∧ (take up n).2 ≤ 1) := by
  refine ⟨?_, ?_, ?_⟩
  · intro f n
    rw [take, takeLoop_infinite]
    simp [List.range_eq_range']
  · intro l n
    rw [take, takeLoop_list]
    refine ⟨by simp, by simp [List.length_take], by simp⟩
  · intro up n hn
    have h0 : n.toNat = 0 := Int.toNat_of_nonpos hn
    rw [take, h0]
    cases h : up 0 <;> simp [takeLoop, h]

/-- C3 amended witness: concrete instances of the amended statement —
an inexhaustible upstream with `n = 2`, and `n = -1` yielding nothing. -/
theorem take_yields_min_one_extra_pull_witness :
    (take (fun i => some (i : Nat)) 2 =
      ((List.range (2 : Int).toNat).map (fun i => i), (2 : Int).toNat + 1)) ∧
      ((-1 : Int) ≤ 0 ∧ (take (fun _ => some (7 : Nat)) (-1)).1 = [] ∧
        (take (fun _ => some (7 : Nat)) (-1)).2 ≤ 1) := by
  refine ⟨(take_yields_min_one_extra_pull Nat).1 (fun i => i) 2, by decide,
    ?_, ?_⟩
  · exact ((take_yields_min_one_extra_pull Nat).2.2 (fun _ => some 7) (-1)
      (by decide)).1
  · exact ((take_yields_min_one_extra_pull Nat).2.2 (fun _ => some 7) (-1)
      (by decide)).2

/-- C6: `scan` yields exactly one output per input element — with an unset
initial accumulator the first element seeds it and is yielded as-is, and
each element after seeding is folded with the reducer and the new
accumulator yielded — while `reduce` performs the same folding without
yielding and resolves to exactly the final accumulator (the last value
`scan` would yield, or the initial one on an empty upstream). -/
theorem scan_one_per_input_reduce_final (α : Type) :
    (∀ (r : Option α → Option α → Option α) (items : List (Option α))
        (acc : Option α) (isF : Bool),
        (scanLoop r items acc isF).length = items.length) ∧
    (∀ (r : Option α → Option α → Option α) (x : Option α)
        (rest : List (Option α)),
        scan (x :: rest) r none = x :: scanLoop r rest x false) ∧
    (∀ (r : Option α → Option α → Option α) (acc x : Option α)
        (rest : List (Option α)),
        scanLoop r (x :: rest) acc false =
          r acc x :: scanLoop r rest (r acc x) false) ∧
    (∀ (r : Option α → Option α → Option α) (items : List (Option α))
        (init : Option α),
        reduce items r init = (scan items r init).getLastD init) := by
  refine ⟨?_, fun r x rest => rfl, fun r acc x rest => rfl, ?_⟩
  · intro r items
    induction items with
    | nil => intro acc isF; rfl
    | cons x rest ih =>
      intro acc isF
      by_cases hc : (isF && acc.isNone) = true
      · simp [scanLoop, hc, ih]
      · simp [scanLoop, hc, ih]
  · intro r items init
    show reduceLoop r items init true =
      (scanLoop r items init true).getLastD init
    suffices h : ∀ (its : List (Option α)) (acc : Option α) (isF : Bool),
        reduceLoop r its acc isF = (scanLoop r its acc isF).getLastD acc by
      exact h items init true
    intro its
    induction its with
    | nil => intro acc isF; rfl
    | cons x rest ih =>
      intro acc isF
      by_cases hc : (isF && acc.isNone) = true
      · rw [show scanLoop r (x :: rest) acc isF =
            x :: scanLoop r rest x false from by simp [scanLoop, hc],
          show reduceLoop r (x :: rest) acc isF =
            reduceLoop r rest x false from by simp [reduceLoop, hc],
          List.getLastD_cons]
        exact ih x false
      · rw [show scanLoop r (x :: rest) acc isF =
            r acc x :: scanLoop r rest (r acc x) isF from by
              simp [scanLoop, hc],
          show reduceLoop r (x :: rest) acc isF =
            reduceLoop r rest (r acc x) isF from by simp [reduceLoop, hc],
          List.getLastD_cons]
        exact ih (r acc x) isF

/-- C10: the unset-accumulator test is `accumulator === undefined` joined
with a first-element flag that only the seeding branch clears; hence even
with a defined initial value, when the reducer returns `undefined` for
some element the next upstream element is taken as a fresh accumulator
seed — yielded (scan) / kept (reduce) as-is — instead of being folded. -/
theorem reducer_undefined_reseeds (α : Type)
    (r : Option α → Option α → Option α) (init x y : Option α)
    (rest : List (Option α)) (hinit : init.isNone = false)
    (hr : r init x = none) :
    scanLoop r (x :: y :: rest) init true =
        none :: y :: scanLoop r rest y false ∧
      reduceLoop r (x :: y :: rest) init true = reduceLoop r rest y false := by
  constructor
  · simp [scanLoop, hinit, hr]
  · simp [reduceLoop, hinit, hr]

/-- C10 witness: with defined initial accumulator `some 5` and a reducer
returning `undefined`, the element after the `undefined` fold re-seeds:
`scan` yields it as-is and `reduce` resolves to it. -/
theorem reducer_undefined_reseeds_witness :
    (Option.isNone (some (5 : Int)) = false) ∧
      ((fun _ _ => (none : Option Int)) (some 5) (some 1) = none) ∧
      scanLoop (fun _ _ => (none : Option Int))
          [some 1, some 2] (some 5) true =
        [none, some 2] ∧
      reduceLoop (fun _ _ => (none : Option Int))
          [some 1, some 2] (some 5) true = some 2 := by
  refine ⟨rfl, rfl, ?_, ?_⟩
  · exact (reducer_undefined_reseeds Int (fun _ _ => none) (some 5) (some 1)
      (some 2) [] rfl rfl).1
  · exact (reducer_undefined_reseeds Int (fun _ _ => none) (some 5) (some 1)
      (some 2) [] rfl rfl).2

end StreamPipes

